import Mathlib

/-!
Verification development for the OpenMDAO pyoptsparse driver slice.

Shallow embedding of src/openmdao/drivers/pyoptsparse_driver.py
(class pyOptSparseDriver: run, objfunc, gradfunc) and of the
complex-step Jacobian mechanism exercised by
src/openmdao/components/test/test_execcomp.py.

Python dictionaries keyed by variable names are embedded as association
lists (Dict); Python exceptions are embedded with Except; the external
collaborators of the driver (set_param, solve_nonlinear, record,
get_objectives, get_constraints, calc_gradient) are embedded as an
oracle environment whose outcomes the theorems quantify over.
-/

namespace OpenMDAO

/-- Association-list embedding of a Python dict keyed by variable name. -/
abbrev Dict (α : Type) : Type := List (String × α)

/-- Key list of a dict, in insertion order (Python dict.keys()). -/
def dictKeys {α : Type} (d : Dict α) : List String := d.map Prod.fst

/-- Exceptions that can arise inside the driver callbacks. -/
inductive Err where
  | keyError (k : String)
  | setParamError (k : String)
  | solveError
  | recordError
  | attrError
deriving Repr, DecidableEq

/-- True when an Except value carries a success. -/
def exceptOk {ε α : Type} : Except ε α → Bool
  | .ok _ => true
  | .error _ => false

/-- Embedding of the parent Problem object as the driver sees it inside
gradfunc: only its calc_gradient facility is consulted there.  The result
is a dictionary of dictionaries (response to design variable to block),
or an exception. -/
structure Problem where
  calcGradient : List String → List String → Except Err (Dict (Dict Int))

/-- The mutable driver attributes that the callbacks read and write:
self.iter_count, self.param_list, self.quantities, self._problem. -/
structure DriverState where
  iterCount : Nat
  paramList : List String
  quantities : List String
  problem : Option Problem

/-- Oracle for the external collaborators called from objfunc: whether
set_param succeeds on a given name and value, whether solve_nonlinear
succeeds, the objective and constraint values that get_objectives and
get_constraints (no filter) harvest after the solve, and whether
self.record succeeds. -/
structure Env where
  setParamOk : String → Int → Bool
  solveOk : Bool
  objectives : Dict Int
  constraints : Dict Int
  recordOk : Bool

/-- The set_param loop at the top of objfunc:
for name in self.param_list: self.set_param(name, dv_dict[name]).
A name missing from dv_dict raises KeyError; set_param itself may raise. -/
def applyParams (env : Env) (dv : Dict Int) : List String → Except Err Unit
  | [] => .ok ()
  | n :: rest =>
    match List.lookup n dv with
    | none => .error (.keyError n)
    | some v =>
      if env.setParamOk n v then applyParams env dv rest
      else .error (.setParamError n)

/-- Embedding of pyOptSparseDriver.objfunc.  Mirrors the Python control
flow: fail = 1 and func_dict = {} initially; inside the try block the
design variables are applied, iter_count is incremented, the model is
solved, objective then constraint values are harvested into func_dict,
and the point is recorded; any exception is caught (never propagated,
objfunc is a total function here) and the partial func_dict built so far
is returned with fail = 1.  Returns ((func_dict, fail), updated state). -/
def objfunc (env : Env) (st : DriverState) (dv : Dict Int) :
    (Dict Int × Nat) × DriverState :=
  match applyParams env dv st.paramList with
  | .error _ => (([], 1), st)
  | .ok _ =>
    let st' : DriverState := { st with iterCount := st.iterCount + 1 }
    if env.solveOk then
      let funcDict : Dict Int := env.objectives ++ env.constraints
      if env.recordOk then ((funcDict, 0), st') else ((funcDict, 1), st')
    else (([], 1), st')

/-- Exception-free execution condition for the objfunc body: every
set_param succeeds, the solve succeeds, and recording succeeds. -/
def objfuncOk (env : Env) (st : DriverState) (dv : Dict Int) : Bool :=
  exceptOk (applyParams env dv st.paramList) && env.solveOk && env.recordOk

/-- Embedding of pyOptSparseDriver.gradfunc.  fail = 1 and
sens_dict = {} initially; the try block calls
self._problem.calc_gradient(dv_dict.keys(), self.quantities, 'dict').
When self._problem is None the attribute access raises (embedded as
attrError); any exception is caught and ({}, 1) is returned, since
sens_dict is only assigned on success.  The func_dict argument fd is
received but never consulted, exactly as in the source. -/
def gradfunc (st : DriverState) (dv : Dict Int) (fd : Dict Int) :
    Dict (Dict Int) × Nat :=
  match st.problem with
  | none => ([], 1)
  | some p =>
    match p.calcGradient (dictKeys dv) st.quantities with
    | .ok s => (s, 0)
    | .error _ => ([], 1)

/-- Exception-free execution condition for the gradfunc body:
self._problem is set and calc_gradient succeeds on the arguments
gradfunc passes it. -/
def gradfuncOk (st : DriverState) (dv : Dict Int) : Bool :=
  match st.problem with
  | none => false
  | some p => exceptOk (p.calcGradient (dictKeys dv) st.quantities)

/-! ### Embedding of pyOptSparseDriver.run

The run method is embedded as a trace of the externally visible calls it
makes, in program order: the initial solve_nonlinear, the addVarGroup,
finalizeDesignVariables, addObj and addConGroup registration calls on the
pyoptsparse Optimization object, the one calc_gradient call that fills
self.lin_jacs, the optimizer import failure or the optimizer invocation,
and the finalize phase (set_param per design variable, final solve).
Design-variable values are elided from the events; no claim consults
them. -/

/-- Metadata of one design variable as get_param_metadata reports it. -/
structure ParamMeta where
  size : Nat
  low : Int
  high : Int
deriving Repr, DecidableEq

/-- Metadata of one constraint as get_constraint_metadata reports it:
size, equality kind, linearity flag, equality target, lower and upper
bounds. -/
structure ConMeta where
  size : Nat
  isEq : Bool
  linear : Bool
  equals : Int
  lower : Int
  upper : Int
deriving Repr, DecidableEq

/-- Inputs of one run: the ordered design-variable metadata, the
objective names, the ordered constraint metadata, the relevance sets
(rel.relevant), the requested optimizer name and the set of optimizer
names importable from pyoptsparse. -/
structure RunConfig where
  paramMeta : List (String × ParamMeta)
  objectives : List String
  conMeta : List (String × ConMeta)
  relevant : String → List String
  optimizer : String
  available : List String

/-- Externally visible calls made by run, in program order. -/
inductive Event where
  | solveNonlinear (iter : Nat)
  | addVarGroup (name : String) (size : Nat) (low high : Int)
  | finalizeDV
  | addObj (name : String)
  | calcLinJac (wrt : List String) (resps : List String)
  | addConGroup (name : String) (size : Nat) (low high : Int)
      (linear : Bool) (wrt : List String) (withJac : Bool)
  | importError (name : String)
  | invokeOpt (name : String)
  | setParam (name : String)
  | solveFinal
deriving Repr, DecidableEq

/-- self.param_list = list(iterkeys(param_meta)). -/
def paramList (cfg : RunConfig) : List String := cfg.paramMeta.map Prod.fst

/-- get_constraints(ctype, lintype): the registered constraints filtered
by equality kind and by linearity, in registration order. -/
def getConstraints (cfg : RunConfig) (eqKind lin : Bool) :
    List (String × ConMeta) :=
  cfg.conMeta.filter (fun p => p.2.isEq == eqKind && p.2.linear == lin)

/-- get_constraints(lintype='linear'): every linear constraint, either
equality kind. -/
def linConNames (cfg : RunConfig) : List String :=
  (cfg.conMeta.filter (fun p => p.2.linear)).map Prod.fst

/-- wrt = rel.relevant[name].intersection(param_list): the relevance set
of a response restricted to the registered design-variable names. -/
def wrtOf (cfg : RunConfig) (name : String) : List String :=
  (cfg.relevant name).filter (fun p => (paramList cfg).contains p)

/-- The calc_gradient call that fills self.lin_jacs, made only when
there is at least one linear constraint. -/
def linJacEvents (cfg : RunConfig) : List Event :=
  if linConNames cfg = [] then []
  else [Event.calcLinJac (paramList cfg) (linConNames cfg)]

/-- The equality-constraint registration loop: iterates
get_constraints(ctype='eq', lintype='nonlinear'), with
lower = upper = equals, wrt from relevance; the linear branch of the
source (which would attach the cached Jacobian) is kept verbatim even
though the lintype filter makes it unreachable. -/
def eqConEvents (cfg : RunConfig) : List Event :=
  (getConstraints cfg true false).map (fun p =>
    if p.2.linear then
      Event.addConGroup p.1 p.2.size p.2.equals p.2.equals true
        (wrtOf cfg p.1) true
    else
      Event.addConGroup p.1 p.2.size p.2.equals p.2.equals false
        (wrtOf cfg p.1) false)

/-- The inequality-constraint registration loop: iterates
get_constraints(ctype='ineq', lintype='nonlinear'), with the declared
lower and upper bounds; the unreachable linear branch is again kept. -/
def ineqConEvents (cfg : RunConfig) : List Event :=
  (getConstraints cfg false false).map (fun p =>
    if p.2.linear then
      Event.addConGroup p.1 p.2.size p.2.lower p.2.upper true
        (wrtOf cfg p.1) true
    else
      Event.addConGroup p.1 p.2.size p.2.lower p.2.upper false
        (wrtOf cfg p.1) false)

/-- self.quantities as run builds it: list(iterkeys(objs)), then
+= iterkeys of the nonlinear equality constraints, then += iterkeys of
the nonlinear inequality constraints. -/
def runQuantities (cfg : RunConfig) : List String :=
  cfg.objectives ++ (getConstraints cfg true false).map Prod.fst
    ++ (getConstraints cfg false false).map Prod.fst

/-- Everything run does before the optimizer import check: iter_count is
set to 0 and the model is solved once at the initial point, then design
variables, objectives and constraints are registered, with the linear
Jacobians computed in between. -/
def preTrace (cfg : RunConfig) : List Event :=
  [Event.solveNonlinear 0]
    ++ cfg.paramMeta.map (fun p => Event.addVarGroup p.1 p.2.size p.2.low p.2.high)
    ++ [Event.finalizeDV]
    ++ cfg.objectives.map Event.addObj
    ++ linJacEvents cfg
    ++ eqConEvents cfg
    ++ ineqConEvents cfg

/-- The full trace of run together with a flag recording whether the
optimizer import raised: when the requested optimizer is not importable,
run raises ImportError right after registration; otherwise the optimizer
is invoked and the finalize phase re-applies the reported optimum and
re-solves. -/
def runTrace (cfg : RunConfig) : List Event × Bool :=
  if cfg.optimizer ∈ cfg.available then
    (preTrace cfg ++ [Event.invokeOpt cfg.optimizer]
      ++ cfg.paramMeta.map (fun p => Event.setParam p.1)
      ++ [Event.solveFinal], false)
  else
    (preTrace cfg ++ [Event.importError cfg.optimizer], true)

/-- Exit-status classification at the end of run:
exit_status = sol.optInform['value'] inside a try block; exit_flag is
set to 1 and demoted to 0 when exit_status > 2; a KeyError (absent code)
yields exit_flag = 0.  Total: the classification never raises. -/
def exitClassify (optInform : Dict Int) : Nat :=
  match List.lookup "value" optInform with
  | none => 0
  | some v => if v > 2 then 0 else 1

/-! ### Complex-step Jacobian model -/

/-- Complex number with rational parts, modelling the exact arithmetic
behind the complex-step evaluation pathway. -/
structure Cx where
  re : ℚ
  im : ℚ
deriving Repr, DecidableEq

/-- Complex addition. -/
def Cx.add (a b : Cx) : Cx := ⟨a.re + b.re, a.im + b.im⟩

/-- Complex subtraction. -/
def Cx.sub (a b : Cx) : Cx := ⟨a.re - b.re, a.im - b.im⟩

/-- Scaling a complex value by a real constant. -/
def Cx.smul (c : ℚ) (a : Cx) : Cx := ⟨c * a.re, c * a.im⟩

/-- The two-output vector expression of
TestExecComp.test_simple_array_model, evaluated in complex arithmetic:
y[0] = 2.0*x[0] + 7.0*x[1] and y[1] = 5.0*x[0] - 3.0*x[1]. -/
def arrayModel (x0 x1 : Cx) : Cx × Cx :=
  (Cx.add (Cx.smul 2 x0) (Cx.smul 7 x1),
   Cx.sub (Cx.smul 5 x0) (Cx.smul 3 x1))

/-- Modelled from the spec: the complex-step Jacobian provider of
ExecComp (source file openmdao/components/execcomp.py is not under src/;
only its test is).  Per the spec, for each scalar entry of each input
the provider perturbs that single entry by h along the imaginary axis,
evaluates the expression with complex arithmetic, and sets the Jacobian
entry to Im(output)/h; no two input entries are perturbed
simultaneously.  Result rows are outputs, columns inputs. -/
def csJacobian (h x0 x1 : ℚ) : (ℚ × ℚ) × (ℚ × ℚ) :=
  let p0 := arrayModel ⟨x0, h⟩ ⟨x1, 0⟩
  let p1 := arrayModel ⟨x0, 0⟩ ⟨x1, h⟩
  ((p0.1.im / h, p1.1.im / h), (p0.2.im / h, p1.2.im / h))

/-! ### Concrete fixtures for witnesses and counterexamples -/

/-- Oracle on which every external call succeeds. -/
def envAllOk : Env :=
  { setParamOk := fun _ _ => true, solveOk := true,
    objectives := [("obj", 3)], constraints := [("con", 4)],
    recordOk := true }

/-- Oracle on which solve_nonlinear raises. -/
def envSolveFail : Env := { envAllOk with solveOk := false }

/-- Driver state with one design variable, outside a run
(self._problem is None). -/
def stBase : DriverState :=
  { iterCount := 5, paramList := ["x"], quantities := ["obj", "con"],
    problem := none }

/-- A concrete design point for the one design variable of stBase. -/
def dvX : Dict Int := [("x", 2)]

/-- calc_gradient oracle whose result records how many design-variable
names and how many response names it was invoked with. -/
def gradProbe : Problem :=
  ⟨fun dvs resps =>
    .ok [("probe", [("ndvs", Int.ofNat dvs.length),
                    ("nresps", Int.ofNat resps.length)])]⟩

/-- Driver state mid-run, with the probing problem attached and a single
response in self.quantities. -/
def stProbe : DriverState :=
  { iterCount := 0, paramList := [], quantities := ["q"],
    problem := some gradProbe }

/-! ### Claim theorems: callbacks -/

/-- Claim C1: neither objfunc nor gradfunc propagates an exception.
Both are total functions of their inputs here; on an exception-free
execution objfunc returns the fully harvested function dictionary with
fail = 0 (and the bumped iteration counter), on any exception it returns
the partial dictionary built so far with fail = 1; gradfunc returns the
computed sensitivity dictionary with fail = 0 on success and the empty
dictionary with fail = 1 on any exception. -/
theorem objfunc_gradfunc_exception_isolation (env : Env) (st : DriverState)
    (dv fdArg : Dict Int) :
    (objfuncOk env st dv = true →
      objfunc env st dv =
        ((env.objectives ++ env.constraints, 0),
         { st with iterCount := st.iterCount + 1 }))
    ∧ (objfuncOk env st dv = false →
      (objfunc env st dv).1.2 = 1 ∧
        ((objfunc env st dv).1.1 = [] ∨
         (objfunc env st dv).1.1 = env.objectives ++ env.constraints))
    ∧ (gradfuncOk st dv = true →
      ∃ p s, st.problem = some p ∧
        p.calcGradient (dictKeys dv) st.quantities = Except.ok s ∧
        gradfunc st dv fdArg = (s, 0))
    ∧ (gradfuncOk st dv = false → gradfunc st dv fdArg = ([], 1)) := by
  refine ⟨?_, ?_, ?_, ?_⟩
  · intro h
    cases hap : applyParams env dv st.paramList with
    | error e => rw [objfuncOk, hap] at h; simp [exceptOk] at h
    | ok u =>
      rw [objfuncOk, hap] at h
      simp only [exceptOk, Bool.true_and, Bool.and_eq_true] at h
      simp [objfunc, hap, h.1, h.2]
  · intro h
    cases hap : applyParams env dv st.paramList with
    | error e => simp [objfunc, hap]
    | ok u =>
      rw [objfuncOk, hap] at h
      simp only [exceptOk, Bool.true_and, Bool.and_eq_true, not_and] at h
      cases hs : env.solveOk with
      | false => simp [objfunc, hap, hs]
      | true =>
        cases hr : env.recordOk with
        | false => simp [objfunc, hap, hs, hr]
        | true => rw [hs, hr] at h; simp at h
  · intro h
    rw [gradfuncOk] at h
    cases hp : st.problem with
    | none => rw [hp] at h; simp at h
    | some p =>
      rw [hp] at h
      dsimp only at h
      cases hc : p.calcGradient (dictKeys dv) st.quantities with
      | error e => rw [hc] at h; simp [exceptOk] at h
      | ok s => exact ⟨p, s, rfl, hc, by simp [gradfunc, hp, hc]⟩
  · intro h
    rw [gradfuncOk] at h
    cases hp : st.problem with
    | none => simp [gradfunc, hp]
    | some p =>
      rw [hp] at h
      dsimp only at h
      cases hc : p.calcGradient (dictKeys dv) st.quantities with
      | error e => simp [gradfunc, hp, hc]
      | ok s => rw [hc] at h; simp [exceptOk] at h

/-- Witness for C1: on a fully successful oracle objfunc reports
fail = 0, on a failing solve it reports fail = 1, a successful
calc_gradient yields fail = 0 from gradfunc, and outside a run gradfunc
returns the empty dictionary with fail = 1. -/
theorem objfunc_gradfunc_exception_isolation_witness :
    (objfunc envAllOk stBase dvX).1.2 = 0
    ∧ (objfunc envSolveFail stBase dvX).1.2 = 1
    ∧ (gradfunc stProbe [] []).2 = 0
    ∧ gradfunc stBase dvX [] = ([], 1) := by
  refine ⟨?_, ?_, ?_, ?_⟩
  · rw [(objfunc_gradfunc_exception_isolation envAllOk stBase dvX []).1
      (by decide)]
  · exact ((objfunc_gradfunc_exception_isolation envSolveFail stBase dvX
      []).2.1 (by decide)).1
  · obtain ⟨p, s, hp, hc, hg⟩ :=
      (objfunc_gradfunc_exception_isolation envAllOk stProbe [] []).2.2.1
        (by decide)
    rw [hg]
  · exact (objfunc_gradfunc_exception_isolation envAllOk stBase dvX
      []).2.2.2 (by decide)

/-- Counterexample to C2: the gradient callback does not use the
response names of its func_dict argument.  At the concrete input below
func_dict is empty, so the claim predicts a calc_gradient invocation on
zero response names, yet gradfunc invokes calc_gradient on
self.quantities, which holds one response. -/
theorem gradfunc_ignores_funcDict_cex :
    gradProbe.calcGradient (dictKeys ([] : Dict Int))
        (dictKeys ([] : Dict Int))
      = Except.ok [("probe", [("ndvs", 0), ("nresps", 0)])]
    ∧ stProbe.problem = some gradProbe
    ∧ gradfunc stProbe [] [] = ([("probe", [("ndvs", 0), ("nresps", 1)])], 0)
    ∧ ([("probe", [("ndvs", (0 : Int)), ("nresps", 0)])] : Dict (Dict Int))
        ≠ [("probe", [("ndvs", 0), ("nresps", 1)])] := by
  exact ⟨rfl, rfl, rfl, by decide⟩

/-- Claim C2 as amended: the gradient callback invokes the model
gradient computation for exactly (dv_dict keys) x (self.quantities), in
dictionary-of-dictionaries shape, and its result is independent of the
func_dict argument, which it ignores. -/
theorem gradfunc_pairs_amended (st : DriverState) (dv fd : Dict Int)
    (p : Problem) (sens : Dict (Dict Int))
    (hp : st.problem = some p)
    (hc : p.calcGradient (dictKeys dv) st.quantities = Except.ok sens) :
    gradfunc st dv fd = (sens, 0)
    ∧ ∀ fd2, gradfunc st dv fd2 = gradfunc st dv fd := by
  exact ⟨by simp [gradfunc, hp, hc], fun fd2 => rfl⟩

/-- Witness for the amended C2 at the probing oracle. -/
theorem gradfunc_pairs_amended_witness :
    gradfunc stProbe [] [("ignored", 0)]
      = ([("probe", [("ndvs", 0), ("nresps", 1)])], 0) :=
  (gradfunc_pairs_amended stProbe [] [("ignored", 0)] gradProbe
    [("probe", [("ndvs", 0), ("nresps", 1)])] rfl rfl).1

/-- Claim C10: invoking the gradient callback while no run is in
progress (self._problem is None) does not raise; the attribute error is
caught and the callback returns the empty sensitivity dictionary with
the failure flag set. -/
theorem gradfunc_no_problem (st : DriverState) (dv fd : Dict Int)
    (h : st.problem = none) : gradfunc st dv fd = ([], 1) := by
  simp [gradfunc, h]

/-- Witness for C10 at the concrete out-of-run state. -/
theorem gradfunc_no_problem_witness : gradfunc stBase dvX [] = ([], 1) :=
  gradfunc_no_problem stBase dvX [] rfl

/-- Claim C6: exit-status classification.  A present status code that
maps to success (value at most 2 under the SNOPT convention of the
source) yields exit_flag = 1; a present failing code yields
exit_flag = 0; an absent code (the KeyError path) yields exit_flag = 0;
the classification is a total function, so it never raises. -/
theorem exit_classification (inform : Dict Int) (v : Int) :
    (List.lookup "value" inform = some v → v ≤ 2 → exitClassify inform = 1)
    ∧ (List.lookup "value" inform = some v → 2 < v → exitClassify inform = 0)
    ∧ (List.lookup "value" inform = none → exitClassify inform = 0) := by
  refine ⟨?_, ?_, ?_⟩
  · intro hl hv
    simp [exitClassify, hl]
    omega
  · intro hl hv
    simp [exitClassify, hl]
    omega
  · intro hl
    simp [exitClassify, hl]

/-- Witness for C6: a success code, a failure code, and a missing code
classified at concrete dictionaries. -/
theorem exit_classification_witness :
    exitClassify [("value", 1)] = 1
    ∧ exitClassify [("value", 9)] = 0
    ∧ exitClassify [] = 0 := by
  refine ⟨?_, ?_, ?_⟩
  · exact (exit_classification [("value", 1)] 1).1 (by decide) (by decide)
  · exact (exit_classification [("value", 9)] 9).2.1 (by decide) (by decide)
  · exact (exit_classification [] 0).2.2 (by decide)

/-- Driver state used to refute C7: one registered design variable, so
an empty design-point dictionary makes the set_param loop raise a
KeyError before the counter is incremented. -/
def stIter : DriverState :=
  { iterCount := 5, paramList := ["x"], quantities := [], problem := none }

/-- Counterexample to C7: an evaluation-callback invocation that raises
while applying the design variables does not increment the iteration
counter.  With the empty design-point dictionary the counter stays at 5
instead of rising to 6. -/
theorem iter_count_increment_cex :
    ((objfunc envAllOk stIter []).2).iterCount = 5
    ∧ ¬ ((objfunc envAllOk stIter []).2).iterCount = stIter.iterCount + 1 := by
  exact ⟨rfl, by decide⟩

/-- Claim C7 as amended: the counter is created once per run and set to
zero before the initial solve; every evaluation-callback invocation
whose design-variable application succeeds increments it by exactly one
(before the solve, so a failing solve still counts); an invocation that
raises while applying design variables leaves it unchanged; hence the
counter never decreases across a sequence of invocations. -/
theorem iter_count_amended (cfg : RunConfig) (env : Env) (st : DriverState)
    (dv : Dict Int) :
    (runTrace cfg).1.head? = some (Event.solveNonlinear 0)
    ∧ (exceptOk (applyParams env dv st.paramList) = true →
        ((objfunc env st dv).2).iterCount = st.iterCount + 1)
    ∧ (((objfunc env st dv).2).iterCount = st.iterCount
        ∨ ((objfunc env st dv).2).iterCount = st.iterCount + 1)
    ∧ st.iterCount ≤ ((objfunc env st dv).2).iterCount := by
  have hstep : ((objfunc env st dv).2).iterCount = st.iterCount
      ∨ ((objfunc env st dv).2).iterCount = st.iterCount + 1 := by
    cases hap : applyParams env dv st.paramList with
    | error e => left; simp [objfunc, hap]
    | ok u =>
      right
      cases hs : env.solveOk with
      | false => simp [objfunc, hap, hs]
      | true =>
        cases hr : env.recordOk with
        | false => simp [objfunc, hap, hs, hr]
        | true => simp [objfunc, hap, hs, hr]
  refine ⟨?_, ?_, hstep, ?_⟩
  · by_cases hav : cfg.optimizer ∈ cfg.available
    · rw [runTrace, if_pos hav]; rfl
    · rw [runTrace, if_neg hav]; rfl
  · intro h
    cases hap : applyParams env dv st.paramList with
    | error e => rw [hap] at h; simp [exceptOk] at h
    | ok u =>
      cases hs : env.solveOk with
      | false => simp [objfunc, hap, hs]
      | true =>
        cases hr : env.recordOk with
        | false => simp [objfunc, hap, hs, hr]
        | true => simp [objfunc, hap, hs, hr]
  · rcases hstep with h | h
    · omega
    · omega

/-- Witness for the amended C7: concrete run start and a concrete
successful invocation that bumps the counter from 5 to 6. -/
theorem iter_count_amended_witness :
    (runTrace
        { paramMeta := [("x", ⟨1, -10, 10⟩)], objectives := ["obj"],
          conMeta := [], relevant := fun _ => [], optimizer := "SNOPT",
          available := ["SNOPT"] }).1.head?
      = some (Event.solveNonlinear 0)
    ∧ ((objfunc envAllOk stBase dvX).2).iterCount = 6 := by
  constructor
  · exact (iter_count_amended
      { paramMeta := [("x", ⟨1, -10, 10⟩)], objectives := ["obj"],
        conMeta := [], relevant := fun _ => [], optimizer := "SNOPT",
        available := ["SNOPT"] } envAllOk stBase dvX).1
  · exact (iter_count_amended
      { paramMeta := [("x", ⟨1, -10, 10⟩)], objectives := ["obj"],
        conMeta := [], relevant := fun _ => [], optimizer := "SNOPT",
        available := ["SNOPT"] } envAllOk stBase dvX).2.1 (by decide)

/-- Claim C8: the complex-step derivative of the two-output linear
vector expression reproduces the exact coefficient matrix
[[2, 7], [5, -3]] at every evaluation point and for every nonzero
imaginary step; in the exact arithmetic of the model there is no
floating-point error at all. -/
theorem complex_step_linear_exact (x0 x1 h : ℚ) (hh : h ≠ 0) :
    csJacobian h x0 x1 = ((2, 7), (5, -3)) := by
  simp only [csJacobian, arrayModel, Cx.add, Cx.sub, Cx.smul]
  refine Prod.ext (Prod.ext ?_ ?_) (Prod.ext ?_ ?_) <;> field_simp

/-- Witness for C8 at the point x = (1, 1) with the spec's step 1e-30. -/
theorem complex_step_linear_exact_witness :
    csJacobian (1 / 10 ^ 30) 1 1 = ((2, 7), (5, -3)) :=
  complex_step_linear_exact 1 1 (1 / 10 ^ 30) (by norm_num)

/-! ### Trace infrastructure for the run-phase claims -/

/-- True on the model-solving events of a run trace. -/
def isSolveEvent : Event → Bool
  | .solveNonlinear _ => true
  | .solveFinal => true
  | _ => false

/-- True on constraint-registration events. -/
def isAddCon : Event → Bool
  | .addConGroup _ _ _ _ _ _ _ => true
  | _ => false

/-- True on the linear-Jacobian computation event. -/
def isCalcLinJac : Event → Bool
  | .calcLinJac _ _ => true
  | _ => false

/-- Name carried by an objective-registration event. -/
def objNameOf : Event → Option String
  | .addObj n => some n
  | _ => none

/-- Name carried by a constraint-registration event. -/
def conNameOf : Event → Option String
  | .addConGroup n _ _ _ _ _ _ => some n
  | _ => none

/-- The events of run after the optimizer import check: on success the
optimizer invocation and the finalize phase, on failure the raised
ImportError. -/
def runTail (cfg : RunConfig) : List Event :=
  if cfg.optimizer ∈ cfg.available then
    [Event.invokeOpt cfg.optimizer]
      ++ cfg.paramMeta.map (fun p => Event.setParam p.1)
      ++ [Event.solveFinal]
  else [Event.importError cfg.optimizer]

lemma runTrace_fst (cfg : RunConfig) :
    (runTrace cfg).1 = preTrace cfg ++ runTail cfg := by
  by_cases hav : cfg.optimizer ∈ cfg.available
  · rw [runTrace, if_pos hav, runTail, if_pos hav]
    simp [List.append_assoc]
  · rw [runTrace, if_neg hav, runTail, if_neg hav]

lemma filterMap_all_none {α β : Type} {f : α → Option β} (l : List α)
    (h : ∀ a, f a = none) : l.filterMap f = [] := by
  induction l with
  | nil => rfl
  | cons a t ih => rw [List.filterMap_cons, h a, ih]

lemma filterMap_all_some {α β : Type} {f : α → Option β} {g : α → β}
    (l : List α) (h : ∀ a, f a = some (g a)) : l.filterMap f = l.map g := by
  induction l with
  | nil => rfl
  | cons a t ih => rw [List.filterMap_cons, h a, List.map_cons, ih]

lemma filter_all_false {α : Type} {p : α → Bool} (l : List α)
    (h : ∀ a, p a = false) : l.filter p = [] := by
  induction l with
  | nil => rfl
  | cons a t ih => rw [List.filter_cons, h a, ih]; rfl

lemma keyNodup_eq {α : Type} {l : List (String × α)}
    (h : (l.map Prod.fst).Nodup) {n : String} {a b : α}
    (ha : (n, a) ∈ l) (hb : (n, b) ∈ l) : a = b := by
  induction l with
  | nil => cases ha
  | cons p t ih =>
    rw [List.map_cons, List.nodup_cons] at h
    rcases List.mem_cons.mp ha with rfl | ha2
    · rcases List.mem_cons.mp hb with h2 | hb2
      · cases h2; rfl
      · exact absurd (List.mem_map_of_mem Prod.fst hb2) (by simpa using h.1)
    · rcases List.mem_cons.mp hb with rfl | hb2
      · exact absurd (List.mem_map_of_mem Prod.fst ha2) (by simpa using h.1)
      · exact ih h.2 ha2 hb2

lemma mem_eqConEvents {cfg : RunConfig} {e : Event}
    (he : e ∈ eqConEvents cfg) :
    ∃ n m, (n, m) ∈ cfg.conMeta ∧ m.isEq = true ∧ m.linear = false ∧
      e = Event.addConGroup n m.size m.equals m.equals false
        (wrtOf cfg n) false := by
  simp only [eqConEvents, List.mem_map] at he
  obtain ⟨p, hp, he⟩ := he
  simp only [getConstraints, List.mem_filter, Bool.and_eq_true,
    beq_iff_eq] at hp
  refine ⟨p.1, p.2, hp.1, hp.2.1, hp.2.2, ?_⟩
  rw [← he, if_neg (by simp [hp.2.2])]

lemma mem_ineqConEvents {cfg : RunConfig} {e : Event}
    (he : e ∈ ineqConEvents cfg) :
    ∃ n m, (n, m) ∈ cfg.conMeta ∧ m.isEq = false ∧ m.linear = false ∧
      e = Event.addConGroup n m.size m.lower m.upper false
        (wrtOf cfg n) false := by
  simp only [ineqConEvents, List.mem_map] at he
  obtain ⟨p, hp, he⟩ := he
  simp only [getConstraints, List.mem_filter, Bool.and_eq_true,
    beq_iff_eq] at hp
  refine ⟨p.1, p.2, hp.1, hp.2.1, hp.2.2, ?_⟩
  rw [← he, if_neg (by simp [hp.2.2])]

lemma mem_linJacEvents {cfg : RunConfig} {e : Event}
    (he : e ∈ linJacEvents cfg) :
    linConNames cfg ≠ [] ∧
      e = Event.calcLinJac (paramList cfg) (linConNames cfg) := by
  rw [linJacEvents] at he
  split at he
  · cases he
  · simp only [List.mem_singleton] at he
    exact ⟨by assumption, he⟩

lemma mem_preTrace_shape {cfg : RunConfig} {e : Event}
    (h : e ∈ preTrace cfg) :
    e = Event.solveNonlinear 0
    ∨ (∃ p, p ∈ cfg.paramMeta
        ∧ Event.addVarGroup p.1 p.2.size p.2.low p.2.high = e)
    ∨ e = Event.finalizeDV
    ∨ (∃ nn, nn ∈ cfg.objectives ∧ Event.addObj nn = e)
    ∨ e ∈ linJacEvents cfg
    ∨ e ∈ eqConEvents cfg
    ∨ e ∈ ineqConEvents cfg := by
  simp only [preTrace, List.append_assoc, List.cons_append, List.nil_append,
    List.mem_append, List.mem_cons, List.mem_map, List.not_mem_nil,
    or_false] at h
  tauto

lemma mem_runTail_shape {cfg : RunConfig} {e : Event}
    (h : e ∈ runTail cfg) :
    e = Event.invokeOpt cfg.optimizer
    ∨ (∃ p, p ∈ cfg.paramMeta ∧ Event.setParam p.1 = e)
    ∨ e = Event.solveFinal
    ∨ e = Event.importError cfg.optimizer := by
  rw [runTail] at h
  split at h
  · rcases List.mem_append.mp h with h | h
    · rcases List.mem_append.mp h with h | h
      · exact Or.inl (List.mem_singleton.mp h)
      · obtain ⟨p, hp, he⟩ := List.mem_map.mp h
        exact Or.inr (Or.inl ⟨p, hp, he⟩)
    · exact Or.inr (Or.inr (Or.inl (List.mem_singleton.mp h)))
  · exact Or.inr (Or.inr (Or.inr (List.mem_singleton.mp h)))

lemma addConGroup_mem_conEvents {cfg : RunConfig} {n : String} {sz : Nat}
    {lo hi : Int} {lin : Bool} {w : List String} {j : Bool}
    (h : Event.addConGroup n sz lo hi lin w j ∈ (runTrace cfg).1) :
    Event.addConGroup n sz lo hi lin w j ∈ eqConEvents cfg
    ∨ Event.addConGroup n sz lo hi lin w j ∈ ineqConEvents cfg := by
  rw [runTrace_fst] at h
  rcases List.mem_append.mp h with h | h
  · rcases mem_preTrace_shape h with h1 | ⟨p, _, h2⟩ | h3 | ⟨nn, _, h4⟩
      | h5 | h6 | h7
    · cases h1
    · cases h2
    · cases h3
    · cases h4
    · rcases mem_linJacEvents h5 with ⟨_, h5⟩; cases h5
    · exact Or.inl h6
    · exact Or.inr h7
  · rcases mem_runTail_shape h with h1 | ⟨p, _, h2⟩ | h3 | h4
    · cases h1
    · cases h2
    · cases h3
    · cases h4

lemma lin_not_mem_quantities {cfg : RunConfig}
    (hnd : (cfg.conMeta.map Prod.fst).Nodup) {n : String} {m : ConMeta}
    (hm : (n, m) ∈ cfg.conMeta) (hlin : m.linear = true)
    (hobj : n ∉ cfg.objectives) : n ∉ runQuantities cfg := by
  intro hq
  rw [runQuantities] at hq
  have hcon : ∀ eqKind : Bool,
      n ∉ (getConstraints cfg eqKind false).map Prod.fst := by
    intro eqKind hn
    obtain ⟨p, hp, hpn⟩ := List.mem_map.mp hn
    simp only [getConstraints, List.mem_filter, Bool.and_eq_true,
      beq_iff_eq] at hp
    have hp2 : (n, p.2) ∈ cfg.conMeta := by
      rw [← hpn]; exact hp.1
    have hmp : m = p.2 := keyNodup_eq hnd hm hp2
    rw [hmp, hp.2.2] at hlin
    cases hlin
  rcases List.mem_append.mp hq with hq | hq
  · rcases List.mem_append.mp hq with hq | hq
    · exact hobj hq
    · exact hcon true hq
  · exact hcon false hq

/-! ### Claim theorems: run phase -/

/-- Claim C5: every constraint-registration call in a run carries the
wrt sparsity set equal to the intersection of the constraint's relevance
set with the registered design-variable names; in particular every name
in wrt is both relevant and registered, so wrt is never a superset of
that intersection. -/
theorem nonlinear_con_wrt_sparsity (cfg : RunConfig) (n : String) (sz : Nat)
    (lo hi : Int) (lin : Bool) (w : List String) (j : Bool)
    (h : Event.addConGroup n sz lo hi lin w j ∈ (runTrace cfg).1) :
    w = wrtOf cfg n
    ∧ ∀ v ∈ w, v ∈ cfg.relevant n ∧ v ∈ paramList cfg := by
  have hw : w = wrtOf cfg n := by
    rcases addConGroup_mem_conEvents h with hm | hm
    · obtain ⟨n2, m, _, _, _, he⟩ := mem_eqConEvents hm
      simp only [Event.addConGroup.injEq] at he
      obtain ⟨rfl, -, -, -, -, hww, -⟩ := he
      exact hww
    · obtain ⟨n2, m, _, _, _, he⟩ := mem_ineqConEvents hm
      simp only [Event.addConGroup.injEq] at he
      obtain ⟨rfl, -, -, -, -, hww, -⟩ := he
      exact hww
  refine ⟨hw, ?_⟩
  intro v hv
  rw [hw, wrtOf] at hv
  have := List.mem_filter.mp hv
  exact ⟨this.1, List.elem_iff.mp this.2⟩

/-- Metadata of a nonlinear equality constraint used in witnesses. -/
def ncMeta : ConMeta := ⟨1, true, false, 0, 0, 0⟩

/-- Concrete run with two design variables and one nonlinear equality
constraint whose relevance set holds one registered and one unregistered
name. -/
def cfgNl : RunConfig :=
  { paramMeta := [("x", ⟨1, -10, 10⟩), ("z", ⟨1, 0, 1⟩)],
    objectives := ["obj"], conMeta := [("nc", ncMeta)],
    relevant := fun s => if s = "nc" then ["x", "w0"] else [],
    optimizer := "SNOPT", available := ["SNOPT"] }

/-- Witness for C5: in the concrete run the constraint is registered
with wrt = ["x"], the relevance set filtered to registered names. -/
theorem nonlinear_con_wrt_sparsity_witness :
    (["x"] : List String) = wrtOf cfgNl "nc"
    ∧ ∀ v ∈ (["x"] : List String),
        v ∈ cfgNl.relevant "nc" ∧ v ∈ paramList cfgNl :=
  nonlinear_con_wrt_sparsity cfgNl "nc" 1 0 0 false ["x"] false (by decide)

/-- Concrete run whose requested optimizer is not importable. -/
def cfgNoOpt : RunConfig :=
  { paramMeta := [("x", ⟨1, -10, 10⟩)], objectives := ["obj"],
    conMeta := [], relevant := fun _ => [], optimizer := "SNOPT",
    available := [] }

/-- Counterexample to C3: with an unsupported optimizer the run does
raise, but only after the model has already been solved once — the
initial solve_nonlinear precedes the import check, so the model is not
"never solved". -/
theorem run_unsupported_solve_cex :
    cfgNoOpt.optimizer ∉ cfgNoOpt.available
    ∧ (runTrace cfgNoOpt).2 = true
    ∧ Event.solveNonlinear 0 ∈ (runTrace cfgNoOpt).1 := by
  exact ⟨by decide, rfl, by decide⟩

/-- Claim C3 as amended: when the requested optimizer is not
importable, run raises the error after the initial solve and registry
construction but before the optimizer engine is ever invoked; the whole
trace holds exactly one model solve (the initial one, at iteration 0),
the raised error is the final event, and no optimizer invocation (hence
no callback-driven evaluation) occurs. -/
theorem run_unsupported_optimizer_amended (cfg : RunConfig)
    (h : cfg.optimizer ∉ cfg.available) :
    (runTrace cfg).2 = true
    ∧ (runTrace cfg).1 = preTrace cfg ++ [Event.importError cfg.optimizer]
    ∧ (runTrace cfg).1.filter isSolveEvent = [Event.solveNonlinear 0]
    ∧ ∀ o, Event.invokeOpt o ∉ (runTrace cfg).1 := by
  have htr : (runTrace cfg).1
      = preTrace cfg ++ [Event.importError cfg.optimizer] := by
    rw [runTrace, if_neg h]
  refine ⟨by rw [runTrace, if_neg h], htr, ?_, ?_⟩
  · rw [htr, List.filter_append]
    have h1 : (preTrace cfg).filter isSolveEvent
        = [Event.solveNonlinear 0] := by
      rw [preTrace, eqConEvents, ineqConEvents]
      repeat rw [List.filter_append]
      rw [List.filter_map, List.filter_map, List.filter_map,
        List.filter_map]
      have h2 : List.filter
          (isSolveEvent ∘ fun p =>
            Event.addVarGroup p.1 p.2.size p.2.low p.2.high)
          cfg.paramMeta = [] :=
        filter_all_false _ (fun a => rfl)
      have h3 : List.filter (isSolveEvent ∘ Event.addObj)
          cfg.objectives = [] :=
        filter_all_false _ (fun a => rfl)
      have h4 : List.filter
          (isSolveEvent ∘ fun p =>
            if p.2.linear = true then
              Event.addConGroup p.1 p.2.size p.2.equals p.2.equals true
                (wrtOf cfg p.1) true
            else
              Event.addConGroup p.1 p.2.size p.2.equals p.2.equals false
                (wrtOf cfg p.1) false)
          (getConstraints cfg true false) = [] :=
        filter_all_false _ (fun a => by
          cases hpl : a.2.linear <;>
            simp [Function.comp, hpl, isSolveEvent])
      have h5 : List.filter
          (isSolveEvent ∘ fun p =>
            if p.2.linear = true then
              Event.addConGroup p.1 p.2.size p.2.lower p.2.upper true
                (wrtOf cfg p.1) true
            else
              Event.addConGroup p.1 p.2.size p.2.lower p.2.upper false
                (wrtOf cfg p.1) false)
          (getConstraints cfg false false) = [] :=
        filter_all_false _ (fun a => by
          cases hpl : a.2.linear <;>
            simp [Function.comp, hpl, isSolveEvent])
      have hlj : (linJacEvents cfg).filter isSolveEvent = [] := by
        rw [linJacEvents]
        split
        · rfl
        · rfl
      rw [h2, h3, h4, h5, hlj]
      rfl
    rw [h1]
    rfl
  · intro o hmem
    rw [htr] at hmem
    rcases List.mem_append.mp hmem with hmem | hmem
    · rcases mem_preTrace_shape hmem with h1 | ⟨p, _, h2⟩ | h3
        | ⟨nn, _, h4⟩ | h5 | h6 | h7
      · cases h1
      · cases h2
      · cases h3
      · cases h4
      · rcases mem_linJacEvents h5 with ⟨_, h5⟩; cases h5
      · obtain ⟨n2, m, _, _, _, he⟩ := mem_eqConEvents h6; cases he
      · obtain ⟨n2, m, _, _, _, he⟩ := mem_ineqConEvents h7; cases he
    · cases List.mem_singleton.mp hmem

/-- Witness for the amended C3 at the concrete unsupported-optimizer
run. -/
theorem run_unsupported_optimizer_amended_witness :
    (runTrace cfgNoOpt).2 = true
    ∧ (runTrace cfgNoOpt).1.filter isSolveEvent = [Event.solveNonlinear 0]
    ∧ Event.invokeOpt "SNOPT" ∉ (runTrace cfgNoOpt).1 := by
  have h := run_unsupported_optimizer_amended cfgNoOpt (by decide)
  exact ⟨h.1, h.2.2.1, h.2.2.2 "SNOPT"⟩

/-- Metadata of a linear equality constraint used in counterexamples. -/
def lcMeta : ConMeta := ⟨1, true, true, 0, 0, 0⟩

/-- Concrete run with one design variable and one linear equality
constraint, on a supported optimizer. -/
def cfgLin : RunConfig :=
  { paramMeta := [("x", ⟨1, -10, 10⟩)], objectives := ["obj"],
    conMeta := [("lc", lcMeta)], relevant := fun _ => ["x"],
    optimizer := "SNOPT", available := ["SNOPT"] }

/-- Counterexample to C4: the linear constraint of the concrete run is
never passed to the optimizer at registration time, because the
constraint-registration loops filter on lintype nonlinear; the whole
trace holds no addConGroup call at all, so in particular none carrying
the cached linear Jacobian. -/
theorem linear_con_registration_cex :
    lcMeta.linear = true
    ∧ ("lc", lcMeta) ∈ cfgLin.conMeta
    ∧ (runTrace cfgLin).2 = false
    ∧ (runTrace cfgLin).1.filter isAddCon = [] := by
  exact ⟨rfl, by decide, rfl, by decide⟩

/-- Claim C4 as amended: for every linear constraint of a run (with
distinct constraint names, the name not doubling as an objective), the
linear Jacobians are computed by exactly one calc_gradient call, placed
after the initial solve and before any constraint registration, over
precisely the linear-constraint names; the gradient callback never
computes sensitivities for the linear constraint, since it is excluded
from self.quantities; however the linear constraint is never registered
with the optimizer at all — the linear special-case registration branch
is unreachable, so no fixed Jacobian is ever passed at registration
time. -/
theorem linear_con_handling_amended (cfg : RunConfig)
    (hnd : (cfg.conMeta.map Prod.fst).Nodup) (n : String) (m : ConMeta)
    (hm : (n, m) ∈ cfg.conMeta) (hlin : m.linear = true)
    (hobj : n ∉ cfg.objectives) :
    (∃ pre post,
      (runTrace cfg).1
        = pre ++ Event.calcLinJac (paramList cfg) (linConNames cfg) :: post
      ∧ n ∈ linConNames cfg
      ∧ Event.solveNonlinear 0 ∈ pre
      ∧ (∀ e ∈ pre, isAddCon e = false)
      ∧ (∀ e ∈ pre, isCalcLinJac e = false)
      ∧ (∀ e ∈ post, isCalcLinJac e = false))
    ∧ (∀ sz lo hi lin w j,
        Event.addConGroup n sz lo hi lin w j ∉ (runTrace cfg).1)
    ∧ n ∉ runQuantities cfg := by
  have hnl : n ∈ linConNames cfg := by
    rw [linConNames]
    exact List.mem_map.mpr
      ⟨(n, m), List.mem_filter.mpr ⟨hm, by simp [hlin]⟩, rfl⟩
  have hne : linConNames cfg ≠ [] := by
    intro hh
    rw [hh] at hnl
    cases hnl
  refine ⟨⟨[Event.solveNonlinear 0]
      ++ cfg.paramMeta.map
          (fun p => Event.addVarGroup p.1 p.2.size p.2.low p.2.high)
      ++ [Event.finalizeDV] ++ cfg.objectives.map Event.addObj,
    eqConEvents cfg ++ ineqConEvents cfg ++ runTail cfg,
    ?_, hnl, ?_, ?_, ?_, ?_⟩, ?_, ?_⟩
  · rw [runTrace_fst, preTrace, linJacEvents, if_neg hne]
    simp [List.append_assoc]
  · simp
  · intro e he
    rcases List.mem_append.mp he with he | he
    · rcases List.mem_append.mp he with he | he
      · rcases List.mem_append.mp he with he | he
        · rw [List.mem_singleton.mp he]; rfl
        · obtain ⟨p, _, hp⟩ := List.mem_map.mp he
          rw [← hp]; rfl
      · rw [List.mem_singleton.mp he]; rfl
    · obtain ⟨nn, _, hp⟩ := List.mem_map.mp he
      rw [← hp]; rfl
  · intro e he
    rcases List.mem_append.mp he with he | he
    · rcases List.mem_append.mp he with he | he
      · rcases List.mem_append.mp he with he | he
        · rw [List.mem_singleton.mp he]; rfl
        · obtain ⟨p, _, hp⟩ := List.mem_map.mp he
          rw [← hp]; rfl
      · rw [List.mem_singleton.mp he]; rfl
    · obtain ⟨nn, _, hp⟩ := List.mem_map.mp he
      rw [← hp]; rfl
  · intro e he
    rcases List.mem_append.mp he with he | he
    · rcases List.mem_append.mp he with he | he
      · obtain ⟨n2, m2, _, _, _, heq⟩ := mem_eqConEvents he
        rw [heq]; rfl
      · obtain ⟨n2, m2, _, _, _, heq⟩ := mem_ineqConEvents he
        rw [heq]; rfl
    · rcases mem_runTail_shape he with h1 | ⟨p, _, h2⟩ | h3 | h4
      · rw [h1]; rfl
      · rw [← h2]; rfl
      · rw [h3]; rfl
      · rw [h4]; rfl
  · intro sz lo hi lin w j hmem
    rcases addConGroup_mem_conEvents hmem with hx | hx
    · obtain ⟨n2, m2, hm2, _, hlin2, he⟩ := mem_eqConEvents hx
      simp only [Event.addConGroup.injEq] at he
      obtain ⟨rfl, -, -, -, -, -, -⟩ := he
      have hmm : m = m2 := keyNodup_eq hnd hm hm2
      rw [hmm, hlin2] at hlin
      cases hlin
    · obtain ⟨n2, m2, hm2, _, hlin2, he⟩ := mem_ineqConEvents hx
      simp only [Event.addConGroup.injEq] at he
      obtain ⟨rfl, -, -, -, -, -, -⟩ := he
      have hmm : m = m2 := keyNodup_eq hnd hm hm2
      rw [hmm, hlin2] at hlin
      cases hlin
  · exact lin_not_mem_quantities hnd hm hlin hobj

/-- Witness for the amended C4 at the concrete linear-constraint run. -/
theorem linear_con_handling_amended_witness :
    "lc" ∈ linConNames cfgLin
    ∧ (∀ sz lo hi lin w j,
        Event.addConGroup "lc" sz lo hi lin w j ∉ (runTrace cfgLin).1)
    ∧ "lc" ∉ runQuantities cfgLin := by
  have h := linear_con_handling_amended cfgLin (by decide) "lc" lcMeta
    (by decide) (by decide) (by decide)
  obtain ⟨⟨pre, post, -, hnl, -⟩, h2, h3⟩ := h
  exact ⟨hnl, h2, h3⟩

lemma trace_objNames (cfg : RunConfig) :
    (runTrace cfg).1.filterMap objNameOf = cfg.objectives := by
  rw [runTrace_fst, List.filterMap_append, preTrace, eqConEvents,
    ineqConEvents]
  repeat rw [List.filterMap_append]
  rw [List.filterMap_map, List.filterMap_map, List.filterMap_map,
    List.filterMap_map]
  have h2 : List.filterMap
      (objNameOf ∘ fun p => Event.addVarGroup p.1 p.2.size p.2.low p.2.high)
      cfg.paramMeta = [] :=
    filterMap_all_none _ (fun a => rfl)
  have h3 : List.filterMap (objNameOf ∘ Event.addObj) cfg.objectives
      = cfg.objectives.map id :=
    filterMap_all_some _ (fun a => rfl)
  have h4 : List.filterMap
      (objNameOf ∘ fun p =>
        if p.2.linear = true then
          Event.addConGroup p.1 p.2.size p.2.equals p.2.equals true
            (wrtOf cfg p.1) true
        else
          Event.addConGroup p.1 p.2.size p.2.equals p.2.equals false
            (wrtOf cfg p.1) false)
      (getConstraints cfg true false) = [] :=
    filterMap_all_none _ (fun a => by
      cases hpl : a.2.linear <;> simp [Function.comp, hpl, objNameOf])
  have h5 : List.filterMap
      (objNameOf ∘ fun p =>
        if p.2.linear = true then
          Event.addConGroup p.1 p.2.size p.2.lower p.2.upper true
            (wrtOf cfg p.1) true
        else
          Event.addConGroup p.1 p.2.size p.2.lower p.2.upper false
            (wrtOf cfg p.1) false)
      (getConstraints cfg false false) = [] :=
    filterMap_all_none _ (fun a => by
      cases hpl : a.2.linear <;> simp [Function.comp, hpl, objNameOf])
  have hlj : (linJacEvents cfg).filterMap objNameOf = [] := by
    rw [linJacEvents]
    split
    · rfl
    · rfl
  have htl : (runTail cfg).filterMap objNameOf = [] := by
    rw [runTail]
    split
    · rw [List.filterMap_append, List.filterMap_append,
        List.filterMap_map]
      have hsp : List.filterMap (objNameOf ∘ fun p => Event.setParam p.1)
          cfg.paramMeta = [] :=
        filterMap_all_none _ (fun a => rfl)
      rw [hsp]
      rfl
    · rfl
  rw [h2, h3, h4, h5, hlj, htl, List.map_id]
  simp [objNameOf]

lemma trace_conNames (cfg : RunConfig) :
    (runTrace cfg).1.filterMap conNameOf
      = (getConstraints cfg true false).map Prod.fst
        ++ (getConstraints cfg false false).map Prod.fst := by
  rw [runTrace_fst, List.filterMap_append, preTrace, eqConEvents,
    ineqConEvents]
  repeat rw [List.filterMap_append]
  rw [List.filterMap_map, List.filterMap_map, List.filterMap_map,
    List.filterMap_map]
  have h2 : List.filterMap
      (conNameOf ∘ fun p => Event.addVarGroup p.1 p.2.size p.2.low p.2.high)
      cfg.paramMeta = [] :=
    filterMap_all_none _ (fun a => rfl)
  have h3 : List.filterMap (conNameOf ∘ Event.addObj) cfg.objectives
      = [] :=
    filterMap_all_none _ (fun a => rfl)
  have h4 : List.filterMap
      (conNameOf ∘ fun p =>
        if p.2.linear = true then
          Event.addConGroup p.1 p.2.size p.2.equals p.2.equals true
            (wrtOf cfg p.1) true
        else
          Event.addConGroup p.1 p.2.size p.2.equals p.2.equals false
            (wrtOf cfg p.1) false)
      (getConstraints cfg true false)
      = (getConstraints cfg true false).map Prod.fst :=
    filterMap_all_some _ (fun a => by
      cases hpl : a.2.linear <;> simp [Function.comp, hpl, conNameOf])
  have h5 : List.filterMap
      (conNameOf ∘ fun p =>
        if p.2.linear = true then
          Event.addConGroup p.1 p.2.size p.2.lower p.2.upper true
            (wrtOf cfg p.1) true
        else
          Event.addConGroup p.1 p.2.size p.2.lower p.2.upper false
            (wrtOf cfg p.1) false)
      (getConstraints cfg false false)
      = (getConstraints cfg false false).map Prod.fst :=
    filterMap_all_some _ (fun a => by
      cases hpl : a.2.linear <;> simp [Function.comp, hpl, conNameOf])
  have hlj : (linJacEvents cfg).filterMap conNameOf = [] := by
    rw [linJacEvents]
    split
    · rfl
    · rfl
  have htl : (runTail cfg).filterMap conNameOf = [] := by
    rw [runTail]
    split
    · rw [List.filterMap_append, List.filterMap_append,
        List.filterMap_map]
      have hsp : List.filterMap (conNameOf ∘ fun p => Event.setParam p.1)
          cfg.paramMeta = [] :=
        filterMap_all_none _ (fun a => rfl)
      rw [hsp]
      rfl
    · rfl
  rw [h2, h3, h4, h5, hlj, htl]
  simp [conNameOf]

/-- Claim C9: the response list for gradient computation
(self.quantities) is exactly all registered objectives, then the
nonlinear equality constraints, then the nonlinear inequality
constraints, each group in its registration order (the orders of the
addObj and addConGroup calls of the trace); a linear constraint (under
distinct constraint names, its name not doubling as an objective) never
appears in it; and the evaluation callback leaves the quantities and
param_list fields of the driver state untouched, so the list survives
unmodified from registry construction to the end of the run. -/
theorem quantities_composition (cfg : RunConfig) (env : Env)
    (st : DriverState) (dv : Dict Int) :
    runQuantities cfg
      = (runTrace cfg).1.filterMap objNameOf
        ++ (runTrace cfg).1.filterMap conNameOf
    ∧ ((cfg.conMeta.map Prod.fst).Nodup →
        ∀ n m, (n, m) ∈ cfg.conMeta → m.linear = true →
          n ∉ cfg.objectives → n ∉ runQuantities cfg)
    ∧ ((objfunc env st dv).2).quantities = st.quantities
    ∧ ((objfunc env st dv).2).paramList = st.paramList := by
  have hpres : ((objfunc env st dv).2).quantities = st.quantities
      ∧ ((objfunc env st dv).2).paramList = st.paramList := by
    cases hap : applyParams env dv st.paramList with
    | error e => simp [objfunc, hap]
    | ok u =>
      cases hs : env.solveOk <;> cases hr : env.recordOk <;>
        simp [objfunc, hap, hs, hr]
  refine ⟨?_, ?_, hpres.1, hpres.2⟩
  · rw [trace_objNames, trace_conNames, runQuantities, List.append_assoc]
  · intro hnd n m hm hlin hobj
    exact lin_not_mem_quantities hnd hm hlin hobj

/-- Witness for C9: the concrete linear-constraint run keeps "lc" out
of self.quantities, and a concrete objfunc invocation leaves the
quantities field unchanged. -/
theorem quantities_composition_witness :
    runQuantities cfgLin
      = (runTrace cfgLin).1.filterMap objNameOf
        ++ (runTrace cfgLin).1.filterMap conNameOf
    ∧ "lc" ∉ runQuantities cfgLin
    ∧ ((objfunc envAllOk stBase dvX).2).quantities = stBase.quantities := by
  have h := quantities_composition cfgLin envAllOk stBase dvX
  exact ⟨h.1, h.2.1 (by decide) "lc" lcMeta (by decide) rfl (by decide),
    h.2.2.1⟩

end OpenMDAO
